import Mathlib

/-!
Shallow embedding of the Spark-compatible columnar hash kernel from
`cpp-ch/local-engine/Functions/SparkFunctionHashingExtended.h`.

Bytes are modelled as `Nat` values below 256, machine integers as `Nat`/`Int`
with explicit reduction modulo `2^w`.  The hash primitive (`Impl::apply` in
the source, instantiated with xxHash64 or the Spark variant of
MurmurHash3_x86_32) is abstracted as a function from a byte list and a seed
to a result; the template class `SparkFunctionAnyHash<Impl>` becomes a family
of functions parameterised by such a primitive.  The Spark MurmurHash3_x86_32
primitive, whose full implementation is in the source file, is also embedded
concretely below.
-/

namespace SparkHash

/-- A hash primitive `(bytes, seed) -> value`, the shape of `Impl::apply`
(`static ToType apply(const char * s, size_t len, UInt64 seed)`).  The length
argument of the C++ signature is the length of the byte list. -/
structure HashImpl where
  apply : List Nat → Nat → Nat

/-- Little-endian byte image of the low `n` bytes of a natural number:
the memory representation of an `n`-byte unsigned integer. -/
def leBytes : Nat → Nat → List Nat
  | 0, _ => []
  | n + 1, x => (x % 256) :: leBytes n (x / 256)

/-- Little-endian 4-byte two's-complement image of an `Int32` value
(`int32_le` in the spec's concrete scenario). -/
def int32le (v : Int) : List Nat :=
  leBytes 4 (v % Int.ofNat (2 ^ 32)).toNat

/-- The fixed-width integer source types dispatched by `executeAny`
(`UInt8 .. UInt64`, `Int8 .. Int64`). -/
inductive IntTy where
  | i8 | i16 | i32 | i64 | u8 | u16 | u32 | u64
  deriving DecidableEq, Repr

/-- `sizeof(T)` for each integer source type. -/
def IntTy.width : IntTy → Nat
  | .i8 => 1 | .i16 => 2 | .i32 => 4 | .i64 => 8
  | .u8 => 1 | .u16 => 2 | .u32 => 4 | .u64 => 8

/-- `is_signed_v<T>` for each integer source type: in `IntHashPromotion`
this, together with the width, fully determines the promoted container
type, independently of the value being hashed. -/
def IntTy.isSigned : IntTy → Bool
  | .i8 => true | .i16 => true | .i32 => true | .i64 => true
  | .u8 => false | .u16 => false | .u32 => false | .u64 => false

/-- `IntHashPromotion<T>::size = max(4, sizeof(T))`: the byte width of the
container whose little-endian image is hashed.  Types narrower than 32 bits
are promoted (`need_promotion_v`), wider types are hashed as they are. -/
def IntTy.promotedSize (t : IntTy) : Nat := max 4 t.width

/-- `applyNumber<T>` for integral `T`: promote the value to
`max(4, sizeof(T))` bytes and hash the little-endian two's-complement image.
The C++ conversion `PromotedType v = n` is value-preserving (sign-extension
for signed sources, zero-extension for unsigned sources); on the byte level
both equal the two's-complement residue `v mod 2^(8*size)` of the
mathematical value. -/
def applyNumberInt (impl : HashImpl) (t : IntTy) (v : Int) (seed : Nat) : Nat :=
  impl.apply (leBytes t.promotedSize (v % (Int.ofNat (2 ^ (8 * t.promotedSize)))).toNat) seed

/-- The `n == -0.0f` test on a 32-bit float bit pattern: true exactly for
the two IEEE-754 zeros (positive zero `0x00000000` and negative zero
`0x80000000`), which compare equal to `-0.0f`; false for every other
pattern, NaNs included (NaN comparisons are false). -/
def float32IsZero (bits : Nat) : Bool :=
  bits == 0 || bits == 0x80000000

/-- The `n == -0.0` test on a 64-bit float bit pattern. -/
def float64IsZero (bits : Nat) : Bool :=
  bits == 0 || bits == 0x8000000000000000

/-- `applyNumber<Float32>`: a zero value is redirected to
`applyNumber<Int32>(0, seed)`; any other value has its raw 4-byte
little-endian bit image hashed.  The float value is modelled by its IEEE-754
bit pattern, whose little-endian bytes are exactly the bytes the source
hashes. -/
def applyNumberFloat32 (impl : HashImpl) (bits : Nat) (seed : Nat) : Nat :=
  if float32IsZero bits then applyNumberInt impl .i32 0 seed
  else impl.apply (leBytes 4 bits) seed

/-- `applyNumber<Float64>`: as for 32-bit floats, with `Int64` and 8 bytes. -/
def applyNumberFloat64 (impl : HashImpl) (bits : Nat) (seed : Nat) : Nat :=
  if float64IsZero bits then applyNumberInt impl .i64 0 seed
  else impl.apply (leBytes 8 bits) seed

/-- The three decimal backing widths dispatched by `executeAny`. -/
inductive DecWidth where
  | w32 | w64 | w128
  deriving DecidableEq, Repr

/-- `getLeadingZeroBits` on a `w`-bit unsigned value, structurally from the
top bit down. -/
def clz : Nat → Nat → Nat
  | 0, _ => 0
  | w + 1, x => if x / 2 ^ w == 0 then 1 + clz w x else 0

/-- `applyDecimal<T>` for `sizeof(NativeType) <= 8` (Decimal32, Decimal64,
DateTime64): the backing integer is converted to `Int64`
(value-preserving sign extension) and its 8 little-endian
two's-complement bytes are hashed. -/
def applyDecimalSmall (impl : HashImpl) (v : Int) (seed : Nat) : Nat :=
  impl.apply (leBytes 8 (v % (Int.ofNat (2 ^ 64))).toNat) seed

/-- `applyDecimal<Decimal128>`: the 128-bit backing integer `v` is reduced to
the minimal big-endian two's-complement byte span (the encoding of Java's
`BigInteger.toByteArray`) and that span is hashed.  Mirrors the source: the
leading-zero count is taken item-wise over the two 64-bit limbs of the
(bitwise-complemented, when negative) value, stopping at the first limb that
is not all sign bits; `offset` drops the redundant leading sign-extension
bytes from the 16-byte big-endian image (byte-swapping each limb and then
swapping the limbs yields exactly the big-endian image, modelled as the
reverse of the little-endian image). -/
def applyDecimal128 (impl : HashImpl) (v : Int) (seed : Nat) : Nat :=
  let pat : Nat := (v % (Int.ofNat (2 ^ 128))).toNat
  let lowItem : Nat := pat % 2 ^ 64
  let highItem : Nat := pat / 2 ^ 64
  let negative : Bool := v < 0
  let tempHigh : Nat := if negative then 2 ^ 64 - 1 - highItem else highItem
  let tempLow : Nat := if negative then 2 ^ 64 - 1 - lowItem else lowItem
  let leadingZeros : Nat :=
    if clz 64 tempHigh == 64 then 64 + clz 64 tempLow else clz 64 tempHigh
  let offset : Nat := 16 - (16 * 8 - leadingZeros + 8) / 8
  impl.apply ((leBytes 16 pat).reverse.drop offset) seed

/-- `applyDecimal<T>`, dispatching on the backing width as the C++ template
does on `sizeof(NativeType)`. -/
def applyDecimal (impl : HashImpl) (w : DecWidth) (v : Int) (seed : Nat) : Nat :=
  match w with
  | .w32 => applyDecimalSmall impl v seed
  | .w64 => applyDecimalSmall impl v seed
  | .w128 => applyDecimal128 impl v seed

/-! ### The Spark variant of MurmurHash3_x86_32

`SparkMurmurHash3_x86_32` from the source, embedded concretely.  Unlike the
reference MurmurHash3, the tail bytes are each run through the full block
mixing step (the deliberate Spark deviation kept for compatibility). -/

/-- `rotl32(x, r)` on a 32-bit value. -/
def rotl32 (x : Nat) (r : Nat) : Nat :=
  ((x <<< r) % 2 ^ 32) ||| (x >>> (32 - r))

/-- One mixing round of the loop body (and, in the Spark variant, of each
tail byte): `k1 *= c1; k1 = rotl32(k1,15); k1 *= c2; h1 ^= k1;
h1 = rotl32(h1,13); h1 = h1*5 + 0xe6546b64`. -/
def murmurStep (h1 : Nat) (k1in : Nat) : Nat :=
  let k1 := (k1in * 0xcc9e2d51) % 2 ^ 32
  let k1 := rotl32 k1 15
  let k1 := (k1 * 0x1b873593) % 2 ^ 32
  let h1 := h1 ^^^ k1
  let h1 := rotl32 h1 13
  (h1 * 5 + 0xe6546b64) % 2 ^ 32

/-- `getblock32`: little-endian read of the `i`-th 4-byte block. -/
def getblock32 (data : List Nat) (i : Nat) : Nat :=
  data.getD (4 * i) 0 + 256 * data.getD (4 * i + 1) 0
    + 65536 * data.getD (4 * i + 2) 0 + 16777216 * data.getD (4 * i + 3) 0

/-- The finalization mix: fold the length in, then the xor-shift/multiply
avalanche. -/
def murmurFmix (h : Nat) (len : Nat) : Nat :=
  let h := h ^^^ (len % 2 ^ 32)
  let h := h ^^^ (h >>> 16)
  let h := (h * 0x85ebca6b) % 2 ^ 32
  let h := h ^^^ (h >>> 13)
  let h := (h * 0xc2b2ae35) % 2 ^ 32
  h ^^^ (h >>> 16)

/-- `SparkMurmurHash3_x86_32(key, len, seed, out)`: blocks of 4 bytes in
order, then the remaining tail bytes one at a time through the same mixing
step, then finalization. -/
def sparkMurmurHash3x86_32 (data : List Nat) (seed : Nat) : Nat :=
  let len := data.length
  let nblocks := len / 4
  let h1 := (List.range nblocks).foldl (fun h i => murmurStep h (getblock32 data i)) seed
  let h1 := (data.drop (nblocks * 4)).foldl murmurStep h1
  murmurFmix h1 len

/-- `SparkMurmurHash3_32::apply`: the `UInt64` seed is truncated to
`UInt32` before entering the hash. -/
def murmurImpl : HashImpl :=
  ⟨fun data seed => sparkMurmurHash3x86_32 data (seed % 2 ^ 32)⟩

/-! ### Columns and the type-dispatch executor -/

/-- The physical data held by the (unwrapped) data column: the possible
results of the `checkAndGetColumn` casts in the per-type routines.  String
columns are kept in their physical form: a flat character buffer and the
per-row end offsets, each row's payload followed by a terminating zero
byte; fixed-string columns are a flat buffer of `n`-byte rows. -/
inductive ColumnData where
  | ints (vals : List Int)
  | floats32 (bits : List Nat)
  | floats64 (bits : List Nat)
  | decimals (w : DecWidth) (vals : List Int)
  | strs (chars : List Nat) (offsets : List Nat)
  | fixedStrs (n : Nat) (chars : List Nat)
  deriving DecidableEq, Repr

/-- The row count of the data column (`IColumn::size` of the unwrapped
column: for strings the offset count, for fixed strings `chars.size() / n`). -/
def ColumnData.rows : ColumnData → Nat
  | .ints vals => vals.length
  | .floats32 bits => bits.length
  | .floats64 bits => bits.length
  | .decimals _ vals => vals.length
  | .strs _ offsets => offsets.length
  | .fixedStrs n chars => chars.length / n

/-- An argument column as `executeAny` receives it: possibly
constant-wrapped (`ColumnConst` broadcasting one data row to `constSize`
rows), possibly nullable-wrapped (the null map runs parallel to the data
rows; `none` when the column is not nullable). -/
structure Column where
  name : String
  isConst : Bool
  constSize : Nat
  nullMap : Option (List Bool)
  data : ColumnData
  deriving DecidableEq, Repr

/-- `column->size()` of the outer column: the broadcast length for a
constant column, the data row count otherwise. -/
def Column.size (c : Column) : Nat :=
  if c.isConst then c.constSize else c.data.rows

/-- `null_map && (*null_map)[i]`: whether row `i` is null.  A missing null
map means no row is null. -/
def nullAt (nm : Option (List Bool)) (i : Nat) : Bool :=
  match nm with
  | none => false
  | some m => m.getD i false

/-- The typed errors the kernel raises (`ILLEGAL_COLUMN`, `LOGICAL_ERROR`
size mismatch, `NOT_IMPLEMENTED`), each carrying the names the source
formats into the message. -/
inductive HashError where
  | illegalColumn (columnName : String) (fnName : String)
  | sizeMismatch (columnName : String) (columnSize : Nat) (accSize : Nat) (fnName : String)
  | notImplemented (fnName : String) (typeName : String)
  deriving DecidableEq, Repr

/-- The non-constant per-row loop shared by every routine:
`for i in 0..size: if (!null_map || !(*null_map)[i]) vec_to[i] = g(i, vec_to[i])`,
where `g i` reads the row-`i` value and hashes it seeded with the prior
accumulator entry. -/
def hashRowsNonConst (g : Nat → Nat → Nat) (nm : Option (List Bool)) (acc : List Nat) : List Nat :=
  (List.range acc.length).map fun i =>
    if nullAt nm i then acc.getD i 0 else g i (acc.getD i 0)

/-- The constant per-row loop shared by every routine: when row 0 of the
broadcast value is null nothing happens; otherwise every accumulator entry
is re-hashed with the single value. -/
def hashRowsConst (g0 : Nat → Nat) (nm : Option (List Bool)) (acc : List Nat) : List Nat :=
  if nullAt nm 0 then acc else acc.map g0

/-- The numeric source types `executeNumberType<FromType>` is instantiated
at (`DateTime64` is `Decimal64`). -/
inductive FromType where
  | int (t : IntTy)
  | float32
  | float64
  | decimal (w : DecWidth)
  deriving DecidableEq, Repr

/-- `executeNumberType<FromType>`: cast the data column to the expected
vector/decimal column (an `ILLEGAL_COLUMN` error when the physical column
does not match), then run the shared per-row loop with
`applyNumber`/`applyDecimal` as the update. -/
def executeNumberType (impl : HashImpl) (fnName : String) (ft : FromType) (colName : String)
    (fromConst : Bool) (nm : Option (List Bool)) (data : ColumnData) (acc : List Nat) :
    Except HashError (List Nat) :=
  match ft, data with
  | .int t, .ints vals =>
      .ok (if fromConst then hashRowsConst (applyNumberInt impl t (vals.getD 0 0)) nm acc
        else hashRowsNonConst (fun i h => applyNumberInt impl t (vals.getD i 0) h) nm acc)
  | .float32, .floats32 bits =>
      .ok (if fromConst then hashRowsConst (applyNumberFloat32 impl (bits.getD 0 0)) nm acc
        else hashRowsNonConst (fun i h => applyNumberFloat32 impl (bits.getD i 0) h) nm acc)
  | .float64, .floats64 bits =>
      .ok (if fromConst then hashRowsConst (applyNumberFloat64 impl (bits.getD 0 0)) nm acc
        else hashRowsNonConst (fun i h => applyNumberFloat64 impl (bits.getD i 0) h) nm acc)
  | .decimal w, .decimals w' vals =>
      if w' = w then
        .ok (if fromConst then hashRowsConst (applyDecimal impl w (vals.getD 0 0)) nm acc
          else hashRowsNonConst (fun i h => applyDecimal impl w (vals.getD i 0) h) nm acc)
      else .error (.illegalColumn colName fnName)
  | _, _ => .error (.illegalColumn colName fnName)

/-- The start offset of string row `i` (`current_offset`, which is
`offsets[i-1]`, starting at 0). -/
def strOffsetAt (offsets : List Nat) (i : Nat) : Nat :=
  if i = 0 then 0 else offsets.getD (i - 1) 0

/-- The hashed byte span of string row `i`:
`data[current_offset .. offsets[i] - 1)`, the final terminator byte
excluded (`offsets[i] - current_offset - 1` bytes). -/
def strSpanAt (chars : List Nat) (offsets : List Nat) (i : Nat) : List Nat :=
  (chars.drop (strOffsetAt offsets i)).take (offsets.getD i 0 - strOffsetAt offsets i - 1)

/-- `executeString`: cast to `ColumnString`, then hash each row's span (for
a constant column, `getDataAt(0)`, which is row 0's span). -/
def executeString (impl : HashImpl) (fnName : String) (colName : String)
    (fromConst : Bool) (nm : Option (List Bool)) (data : ColumnData) (acc : List Nat) :
    Except HashError (List Nat) :=
  match data with
  | .strs chars offsets =>
      .ok (if fromConst then hashRowsConst (impl.apply (strSpanAt chars offsets 0)) nm acc
        else hashRowsNonConst (fun i h => impl.apply (strSpanAt chars offsets i) h) nm acc)
  | _ => .error (.illegalColumn colName fnName)

/-- The hashed byte span of fixed-string row `i`: the `n` bytes at
`data[i*n]`. -/
def fixedSpanAt (n : Nat) (chars : List Nat) (i : Nat) : List Nat :=
  (chars.drop (i * n)).take n

/-- `executeFixedString`: cast to `ColumnFixedString`, then hash each row's
`n`-byte span (for a constant column, `getDataAt(0)`). -/
def executeFixedString (impl : HashImpl) (fnName : String) (colName : String)
    (fromConst : Bool) (nm : Option (List Bool)) (data : ColumnData) (acc : List Nat) :
    Except HashError (List Nat) :=
  match data with
  | .fixedStrs n chars =>
      .ok (if fromConst then hashRowsConst (impl.apply (fixedSpanAt n chars 0)) nm acc
        else hashRowsNonConst (fun i h => impl.apply (fixedSpanAt n chars i) h) nm acc)
  | _ => .error (.illegalColumn colName fnName)

/-- The resolved logical types `executeAny` dispatches on, after
`removeNullable`.  Decimal types carry their declared precision and scale;
the dispatch never reads them. -/
inductive DataType where
  | int (t : IntTy)
  | float32
  | float64
  | date
  | date32
  | dateTime
  | dateTime64 (scale : Nat)
  | decimal (w : DecWidth) (precision : Nat) (scale : Nat)
  | string
  | fixedString (n : Nat)
  | other (name : String)
  deriving DecidableEq, Repr

/-- `IDataType::getName`, as formatted into the `NOT_IMPLEMENTED` message. -/
def DataType.name : DataType → String
  | .int .i8 => "Int8" | .int .i16 => "Int16" | .int .i32 => "Int32" | .int .i64 => "Int64"
  | .int .u8 => "UInt8" | .int .u16 => "UInt16" | .int .u32 => "UInt32" | .int .u64 => "UInt64"
  | .float32 => "Float32" | .float64 => "Float64"
  | .date => "Date" | .date32 => "Date32" | .dateTime => "DateTime" | .dateTime64 _ => "DateTime64"
  | .decimal .w32 _ _ => "Decimal32" | .decimal .w64 _ _ => "Decimal64"
  | .decimal .w128 _ _ => "Decimal128"
  | .string => "String" | .fixedString _ => "FixedString"
  | .other s => s

/-- `executeAny`: the size check (`LOGICAL_ERROR` when the argument column's
outer size disagrees with the result size) comes before anything else; then
constant and nullable wrappers are unwrapped, and the resolved logical type
is dispatched to the per-type routine — `Date`, `Date32` and `DateTime` hash
as their backing `UInt16`/`Int32`/`UInt32`, `DateTime64` as its backing
`Decimal64`; anything else is `NOT_IMPLEMENTED`. -/
def executeAny (impl : HashImpl) (fnName : String) (ty : DataType) (c : Column)
    (acc : List Nat) : Except HashError (List Nat) :=
  if c.size ≠ acc.length then
    .error (.sizeMismatch c.name c.size acc.length fnName)
  else
    match ty with
    | .int t => executeNumberType impl fnName (.int t) c.name c.isConst c.nullMap c.data acc
    | .float32 => executeNumberType impl fnName .float32 c.name c.isConst c.nullMap c.data acc
    | .float64 => executeNumberType impl fnName .float64 c.name c.isConst c.nullMap c.data acc
    | .date => executeNumberType impl fnName (.int .u16) c.name c.isConst c.nullMap c.data acc
    | .date32 => executeNumberType impl fnName (.int .i32) c.name c.isConst c.nullMap c.data acc
    | .dateTime => executeNumberType impl fnName (.int .u32) c.name c.isConst c.nullMap c.data acc
    | .dateTime64 _ =>
        executeNumberType impl fnName (.decimal .w64) c.name c.isConst c.nullMap c.data acc
    | .decimal w _ _ =>
        executeNumberType impl fnName (.decimal w) c.name c.isConst c.nullMap c.data acc
    | .string => executeString impl fnName c.name c.isConst c.nullMap c.data acc
    | .fixedString _ => executeFixedString impl fnName c.name c.isConst c.nullMap c.data acc
    | .other s => .error (.notImplemented fnName (DataType.other s).name)

/-- One argument of a call: its resolved logical type and its column. -/
structure Argument where
  type : DataType
  col : Column

/-- The argument loop of `executeImpl`: fold each argument into the
accumulator left to right; a thrown error aborts the call. -/
def foldArgs (impl : HashImpl) (fnName : String) : List Argument → List Nat →
    Except HashError (List Nat)
  | [], acc => .ok acc
  | a :: rest, acc => (executeAny impl fnName a.type a.col acc).bind (foldArgs impl fnName rest)

/-- `executeImpl`: allocate the accumulator of length `input_rows_count`,
fill every slot with the seed 42, then fold the arguments in. -/
def executeImpl (impl : HashImpl) (fnName : String) (args : List Argument) (n : Nat) :
    Except HashError (List Nat) :=
  foldArgs impl fnName args (List.replicate n 42)

/-! ### Shared lemmas about the per-row loops -/

/-- Reading a list by index over its index range is the same as mapping
over it. -/
theorem range_map_getD {α β : Type} (l : List α) (d : α) (f : α → β) :
    (List.range l.length).map (fun i => f (l.getD i d)) = l.map f := by
  induction l with
  | nil => rfl
  | cons a t ih =>
    simp only [List.length_cons, List.range_succ_eq_map, List.map_cons, List.map_map]
    refine congrArg (f ((a :: t).getD 0 d) :: ·) ?_
    calc (List.range t.length).map ((fun i => f ((a :: t).getD i d)) ∘ Nat.succ)
        = (List.range t.length).map (fun i => f (t.getD i d)) := rfl
      _ = t.map f := ih

/-- The non-constant loop does not change the length of the accumulator. -/
theorem hashRowsNonConst_length (g : Nat → Nat → Nat) (nm : Option (List Bool))
    (acc : List Nat) : (hashRowsNonConst g nm acc).length = acc.length := by
  simp [hashRowsNonConst]

/-- Entry `i` of the non-constant loop's output, for `i` in range. -/
theorem hashRowsNonConst_getD (g : Nat → Nat → Nat) (nm : Option (List Bool))
    (acc : List Nat) (i : Nat) (hi : i < acc.length) :
    (hashRowsNonConst g nm acc).getD i 0 =
      if nullAt nm i then acc.getD i 0 else g i (acc.getD i 0) := by
  rw [hashRowsNonConst, List.getD_eq_getElem?_getD, List.getElem?_map,
    List.getElem?_range hi]
  rfl

/-- A null row passes the prior accumulator entry through unchanged. -/
theorem hashRowsNonConst_null (g : Nat → Nat → Nat) (nm : Option (List Bool))
    (acc : List Nat) (i : Nat) (h : nullAt nm i = true) :
    (hashRowsNonConst g nm acc).getD i 0 = acc.getD i 0 := by
  by_cases hi : i < acc.length
  · rw [hashRowsNonConst_getD g nm acc i hi, h]
    simp
  · have hle : acc.length ≤ i := Nat.le_of_not_lt hi
    rw [List.getD_eq_default _ _ (by simpa [hashRowsNonConst_length] using hle),
      List.getD_eq_default _ _ hle]

/-- When every in-range row reads the same value, the non-constant loop
with no nulls is a plain map over the accumulator. -/
theorem hashRowsNonConst_const (g : Nat → Nat → Nat) (f : Nat → Nat) (acc : List Nat)
    (h : ∀ i, i < acc.length → ∀ x, g i x = f x) :
    hashRowsNonConst g none acc = acc.map f := by
  rw [hashRowsNonConst]
  have h1 : ∀ i ∈ List.range acc.length,
      (if nullAt none i then acc.getD i 0 else g i (acc.getD i 0)) = f (acc.getD i 0) := by
    intro i hi
    rw [List.mem_range] at hi
    simp [nullAt, h i hi]
  rw [List.map_congr_left h1, range_map_getD acc 0 f]

/-! ### Claim theorems -/

/-- C5: `execute` with an empty argument list succeeds and returns a column
of length `n` whose every row is the seed 42; in general the accumulator is
the all-42 buffer before the first argument is folded in. -/
theorem c5_empty_args_yield_seed (impl : HashImpl) (fnName : String) (n : Nat) :
    executeImpl impl fnName [] n = .ok (List.replicate n 42) ∧
    (∀ args : List Argument,
      executeImpl impl fnName args n = foldArgs impl fnName args (List.replicate n 42)) :=
  ⟨rfl, fun _ => rfl⟩

/-- C6: for each floating-point width, negative zero hashes like positive
zero: both are normalized to the corresponding signed-integer zero
(`applyNumber<Int32>(0)` / `applyNumber<Int64>(0)`) before hashing. -/
theorem c6_negative_zero_normalized (impl : HashImpl) (seed : Nat) :
    (applyNumberFloat32 impl 0x80000000 seed = applyNumberFloat32 impl 0 seed ∧
      applyNumberFloat32 impl 0x80000000 seed = applyNumberInt impl .i32 0 seed) ∧
    (applyNumberFloat64 impl 0x8000000000000000 seed = applyNumberFloat64 impl 0 seed ∧
      applyNumberFloat64 impl 0x8000000000000000 seed = applyNumberInt impl .i64 0 seed) :=
  ⟨⟨rfl, rfl⟩, ⟨rfl, rfl⟩⟩

/-- C9: decimal hashing of 64-bit-representable backings depends only on the
backing integer: equal Decimal32/Decimal64 backing integers hash equally
(both as the 8 little-endian bytes of the sign-extended `Int64`), and the
declared precision and scale of a decimal argument type never influence the
dispatch result. -/
theorem c9_decimal_backing_integer_only (impl : HashImpl) (seed : Nat) (v : Int)
    (fnName : String) (c : Column) (acc : List Nat) (w : DecWidth) (p s p' s' : Nat) :
    applyDecimal impl .w32 v seed = applyDecimal impl .w64 v seed ∧
    applyDecimal impl .w64 v seed = impl.apply (leBytes 8 (v % Int.ofNat (2 ^ 64)).toNat) seed ∧
    executeAny impl fnName (.decimal w p s) c acc
      = executeAny impl fnName (.decimal w p' s') c acc :=
  ⟨rfl, rfl, rfl⟩

/-- C3: a mathematical value representable at 8, 16 and 32 bits hashes
identically from a column of any of those widths: the narrow value is
promoted to the 4-byte container of the source type's signedness
(value-preserving sign extension for signed sources, zero extension for
unsigned ones), so the hashed little-endian images coincide. -/
theorem c3_promotion_invariant (impl : HashImpl) (seed : Nat) (v : Int) :
    (-(2 ^ 7) ≤ v → v < 2 ^ 7 →
      applyNumberInt impl .i8 v seed = applyNumberInt impl .i32 v seed ∧
      applyNumberInt impl .i16 v seed = applyNumberInt impl .i32 v seed) ∧
    (0 ≤ v → v < 2 ^ 8 →
      applyNumberInt impl .u8 v seed = applyNumberInt impl .u32 v seed ∧
      applyNumberInt impl .u16 v seed = applyNumberInt impl .u32 v seed) :=
  ⟨fun _ _ => ⟨rfl, rfl⟩, fun _ _ => ⟨rfl, rfl⟩⟩

/-- Witness for C3 at the signed value `-5` and the unsigned value `200`. -/
theorem c3_promotion_invariant_witness :
    applyNumberInt murmurImpl .i8 (-5) 42 = applyNumberInt murmurImpl .i32 (-5) 42 ∧
    applyNumberInt murmurImpl .u16 200 42 = applyNumberInt murmurImpl .u32 200 42 :=
  ⟨((c3_promotion_invariant murmurImpl 42 (-5)).1 (by decide) (by decide)).1,
    ((c3_promotion_invariant murmurImpl 42 200).2 (by decide) (by decide)).2⟩

/-- C7: an argument whose resolved logical type is outside the supported
set fails with a `NOT_IMPLEMENTED` error naming the function and the
offending type (assuming the size check, which runs first, passes). -/
theorem c7_unsupported_type_error (impl : HashImpl) (fnName tyName : String)
    (c : Column) (acc : List Nat) (h : c.size = acc.length) :
    executeAny impl fnName (.other tyName) c acc
      = .error (.notImplemented fnName tyName) := by
  rw [executeAny]
  simp [h, DataType.name]

/-- Witness for C7 on a map-typed argument of matching size. -/
theorem c7_unsupported_type_error_witness :
    executeAny murmurImpl "sparkMurmurHash3_32" (.other "Map(String, Int64)")
        ⟨"c", false, 0, none, .ints [1, 2, 3]⟩ [42, 42, 42]
      = .error (.notImplemented "sparkMurmurHash3_32" "Map(String, Int64)") :=
  c7_unsupported_type_error murmurImpl "sparkMurmurHash3_32" "Map(String, Int64)"
    ⟨"c", false, 0, none, .ints [1, 2, 3]⟩ [42, 42, 42] rfl

/-- C8: an argument column whose outer size disagrees with the batch row
count fails with the size-mismatch `LOGICAL_ERROR` naming the column and the
function, before any per-row hashing and for every argument type. -/
theorem c8_size_mismatch_error (impl : HashImpl) (fnName : String) (ty : DataType)
    (c : Column) (acc : List Nat) (h : c.size ≠ acc.length) :
    executeAny impl fnName ty c acc
      = .error (.sizeMismatch c.name c.size acc.length fnName) := by
  rw [executeAny.eq_def]
  simp [h]

/-- Witness for C8 on a 2-row column against a 3-row batch. -/
theorem c8_size_mismatch_error_witness :
    executeAny murmurImpl "sparkXxHash64" (.int .i32)
        ⟨"c", false, 0, none, .ints [1, 2]⟩ [42, 42, 42]
      = .error (.sizeMismatch "c" 2 3 "sparkXxHash64") :=
  c8_size_mismatch_error murmurImpl "sparkXxHash64" (.int .i32)
    ⟨"c", false, 0, none, .ints [1, 2]⟩ [42, 42, 42] (by decide)

/-- C2 (counterexample): the backing integer 0 — representable in 64 bits —
hashes differently from a 128-bit-backed decimal column than from a
64-bit-backed one under the kernel's Murmur primitive: the 64-bit path
hashes the eight little-endian bytes of the `Int64`, while the 128-bit path
hashes the one-byte minimal big-endian two's-complement span `[0]`. -/
theorem c2_cross_width_counterexample :
    applyDecimal murmurImpl .w128 0 42 ≠ applyDecimal murmurImpl .w64 0 42 := by
  decide

/-- C2 (amended): 64-bit-representable decimal values hash identically
across the 32-bit and 64-bit backing widths (both feed the sign-extended
`Int64`'s eight little-endian bytes to the primitive); the 128-bit backing
instead hashes the minimal big-endian two's-complement span and in general
differs. -/
theorem c2_cross_width_amended (impl : HashImpl) (seed : Nat) (v : Int)
    (h1 : -(2 ^ 31) ≤ v) (h2 : v < 2 ^ 31) :
    applyDecimal impl .w32 v seed = applyDecimal impl .w64 v seed :=
  rfl

/-- Witness for the amended C2 at the backing value 0. -/
theorem c2_cross_width_amended_witness :
    applyDecimal murmurImpl .w32 0 42 = applyDecimal murmurImpl .w64 0 42 :=
  c2_cross_width_amended murmurImpl 42 0 (by decide) (by decide)

/-- For a non-constant argument, a successful dispatch always runs the
shared non-constant per-row loop over the accumulator. -/
theorem executeAny_nonconst_ok (impl : HashImpl) (fnName : String) (ty : DataType)
    (c : Column) (acc out : List Nat) (hconst : c.isConst = false)
    (hok : executeAny impl fnName ty c acc = .ok out) :
    ∃ g, out = hashRowsNonConst g c.nullMap acc := by
  rw [executeAny.eq_def] at hok
  by_cases hsz : c.size ≠ acc.length
  · simp [hsz] at hok
  · rw [if_neg hsz] at hok
    cases ty <;> cases hd : c.data <;>
        (try simp [executeNumberType, executeString, executeFixedString, hconst, hd] at hok) <;>
      first
        | exact ⟨_, hok.symm⟩
        | (split at hok
           · simp at hok
             exact ⟨_, hok.symm⟩
           · simp at hok)

/-- For a constant argument whose single broadcast value is null, a
successful dispatch returns the accumulator unchanged. -/
theorem executeAny_const_null_ok (impl : HashImpl) (fnName : String) (ty : DataType)
    (c : Column) (acc out : List Nat) (hconst : c.isConst = true)
    (hnull : nullAt c.nullMap 0 = true)
    (hok : executeAny impl fnName ty c acc = .ok out) : out = acc := by
  rw [executeAny.eq_def] at hok
  by_cases hsz : c.size ≠ acc.length
  · simp [hsz] at hok
  · rw [if_neg hsz] at hok
    cases ty <;> cases hd : c.data <;>
        (try simp [executeNumberType, executeString, executeFixedString, hconst, hd,
          hashRowsConst, hnull] at hok) <;>
      first
        | exact hok.symm
        | (split at hok
           · simp [hashRowsConst, hnull] at hok
             exact hok.symm
           · simp at hok)

/-- C1: a null at row `i` of argument `k` leaves the accumulator entry at
row `i` exactly as it was after folding argument `k-1` (the accumulator
passed in — for `k = 0`, the seed): for a non-constant column a null at row
`i` keeps entry `i`, and for a constant column a null broadcast value keeps
every entry; concretely, a single nullable `Int32` column `[1, 2, null]`
under the 64-bit algorithm (any primitive, seeded per row with 42) yields
`[hash(int32_le 1, 42), hash(int32_le 2, 42), 42]`. -/
theorem c1_null_row_passthrough :
    (∀ (impl : HashImpl) (fnName : String) (ty : DataType) (c : Column)
        (acc out : List Nat) (i : Nat),
      c.isConst = false → nullAt c.nullMap i = true →
      executeAny impl fnName ty c acc = .ok out →
      out.getD i 0 = acc.getD i 0) ∧
    (∀ (impl : HashImpl) (fnName : String) (ty : DataType) (c : Column)
        (acc out : List Nat) (i : Nat),
      c.isConst = true → nullAt c.nullMap 0 = true →
      executeAny impl fnName ty c acc = .ok out →
      out.getD i 0 = acc.getD i 0) ∧
    (∀ impl : HashImpl,
      executeImpl impl "sparkXxHash64"
          [⟨.int .i32, ⟨"c", false, 0, some [false, false, true], .ints [1, 2, 0]⟩⟩] 3
        = .ok [impl.apply (int32le 1) 42, impl.apply (int32le 2) 42, 42]) := by
  refine ⟨?_, ?_, ?_⟩
  · intro impl fnName ty c acc out i hconst hnull hok
    obtain ⟨g, rfl⟩ := executeAny_nonconst_ok impl fnName ty c acc out hconst hok
    exact hashRowsNonConst_null g c.nullMap acc i hnull
  · intro impl fnName ty c acc out i hconst hnull hok
    rw [executeAny_const_null_ok impl fnName ty c acc out hconst hnull hok]
  · intro impl
    rfl

/-- Witness for C1: a nullable `Int64` column `[7, null]` against the
accumulator `[1, 2]` keeps entry 1 at its prior value 2. -/
theorem c1_null_row_passthrough_witness :
    executeAny murmurImpl "h" (.int .i64)
        ⟨"c", false, 0, some [false, true], .ints [7, 9]⟩ [1, 2]
      = .ok [murmurImpl.apply (leBytes 8 7) 1, 2] ∧
    [murmurImpl.apply (leBytes 8 7) 1, 2].getD 1 0 = [1, 2].getD 1 0 :=
  ⟨rfl, c1_null_row_passthrough.1 murmurImpl "h" (.int .i64)
    ⟨"c", false, 0, some [false, true], .ints [7, 9]⟩ [1, 2]
    [murmurImpl.apply (leBytes 8 7) 1, 2] 1 rfl rfl rfl⟩

/-- C4: a non-null broadcast-constant argument over `n` rows produces
exactly the output of a non-constant column holding the same value
(the same per-row byte span) in every row; a null constant leaves every
accumulator row untouched; concretely, the constant string `"abc"` over 5
rows yields the fold of `"abc"` against seed 42 in all 5 rows. -/
theorem c4_constant_broadcast :
    (∀ (impl : HashImpl) (fnName colName : String) (t : IntTy) (v : Int)
        (n : Nat) (acc : List Nat), acc.length = n →
      executeAny impl fnName (.int t) ⟨colName, true, n, none, .ints [v]⟩ acc
        = executeAny impl fnName (.int t)
            ⟨colName, false, 0, none, .ints (List.replicate n v)⟩ acc) ∧
    (∀ (impl : HashImpl) (fnName colName : String)
        (chars0 offsets0 chars offsets : List Nat) (n : Nat) (acc : List Nat),
      acc.length = n → offsets.length = n →
      (∀ i, i < n → strSpanAt chars offsets i = strSpanAt chars0 offsets0 0) →
      executeAny impl fnName .string ⟨colName, true, n, none, .strs chars0 offsets0⟩ acc
        = executeAny impl fnName .string ⟨colName, false, 0, none, .strs chars offsets⟩ acc) ∧
    (∀ (impl : HashImpl) (fnName colName : String) (t : IntTy) (v : Int)
        (n : Nat) (acc : List Nat), acc.length = n →
      executeAny impl fnName (.int t) ⟨colName, true, n, some [true], .ints [v]⟩ acc
        = .ok acc) ∧
    (∀ impl : HashImpl,
      executeImpl impl "sparkXxHash64"
          [⟨.string, ⟨"s", true, 5, none, .strs [97, 98, 99, 0] [4]⟩⟩] 5
        = .ok (List.replicate 5 (impl.apply [97, 98, 99] 42))) := by
  refine ⟨?_, ?_, ?_, ?_⟩
  · intro impl fnName colName t v n acc hlen
    subst hlen
    rw [executeAny.eq_def, executeAny.eq_def]
    simp [Column.size, ColumnData.rows, executeNumberType, hashRowsConst, nullAt]
    rw [hashRowsNonConst_const _ (applyNumberInt impl t v)]
    intro i hi x
    simp [List.getD_eq_getElem?_getD, List.getElem?_replicate, hi]
  · intro impl fnName colName chars0 offsets0 chars offsets n acc hlen hoff hspan
    subst hlen
    rw [executeAny.eq_def, executeAny.eq_def]
    simp [Column.size, ColumnData.rows, hoff, executeString, hashRowsConst, nullAt]
    rw [hashRowsNonConst_const _ (impl.apply (strSpanAt chars0 offsets0 0))]
    intro i hi x
    rw [hspan i hi]
  · intro impl fnName colName t v n acc hlen
    subst hlen
    rw [executeAny.eq_def]
    simp [Column.size, executeNumberType, hashRowsConst, nullAt]
  · intro impl
    rfl

/-- Witness for C4: a constant `UInt8` value 3 broadcast over 2 rows, a
constant single-character string over 2 rows, and a null constant. -/
theorem c4_constant_broadcast_witness :
    (executeAny murmurImpl "h" (.int .u8) ⟨"c", true, 2, none, .ints [3]⟩ [42, 43]
      = executeAny murmurImpl "h" (.int .u8)
          ⟨"c", false, 0, none, .ints (List.replicate 2 3)⟩ [42, 43]) ∧
    (executeAny murmurImpl "h" .string ⟨"c", true, 2, none, .strs [97, 0] [2]⟩ [42, 43]
      = executeAny murmurImpl "h" .string
          ⟨"c", false, 0, none, .strs [97, 0, 97, 0] [2, 4]⟩ [42, 43]) ∧
    (executeAny murmurImpl "h" (.int .u8) ⟨"c", true, 2, some [true], .ints [3]⟩ [42, 43]
      = .ok [42, 43]) :=
  ⟨c4_constant_broadcast.1 murmurImpl "h" "c" .u8 3 2 [42, 43] rfl,
    c4_constant_broadcast.2.1 murmurImpl "h" "c" [97, 0] [2] [97, 0, 97, 0] [2, 4] 2
      [42, 43] rfl rfl (by decide),
    c4_constant_broadcast.2.2.1 murmurImpl "h" "c" .u8 3 2 [42, 43] rfl⟩

/-- C10: a non-null zero-length string at row `i` (its stored span is just
the terminator byte) does update the accumulator — the primitive is applied
to the empty byte span seeded with the prior accumulated value — whereas a
null at the same row passes the prior value through; under the kernel's own
Murmur primitive the empty-span update visibly changes the seed 42, so the
two are distinguishable in the output. -/
theorem c10_empty_string_updates :
    (∀ (impl : HashImpl) (fnName colName : String) (chars offsets : List Nat)
        (nm : Option (List Bool)) (acc out : List Nat) (i : Nat),
      i < acc.length → offsets.length = acc.length →
      offsets.getD i 0 = strOffsetAt offsets i + 1 →
      nullAt nm i = false →
      executeAny impl fnName .string ⟨colName, false, 0, nm, .strs chars offsets⟩ acc
        = .ok out →
      out.getD i 0 = impl.apply [] (acc.getD i 0)) ∧
    (∀ (impl : HashImpl) (fnName colName : String) (chars offsets : List Nat)
        (nm : Option (List Bool)) (acc out : List Nat) (i : Nat),
      nullAt nm i = true →
      executeAny impl fnName .string ⟨colName, false, 0, nm, .strs chars offsets⟩ acc
        = .ok out →
      out.getD i 0 = acc.getD i 0) ∧
    murmurImpl.apply [] 42 ≠ 42 := by
  refine ⟨?_, ?_, by decide⟩
  · intro impl fnName colName chars offsets nm acc out i hi hoff hterm hnn hok
    rw [executeAny.eq_def] at hok
    simp [Column.size, ColumnData.rows, hoff, executeString] at hok
    subst hok
    rw [hashRowsNonConst_getD _ nm acc i hi, hnn]
    simp only [Bool.false_eq_true, if_false]
    have hspan : strSpanAt chars offsets i = [] := by
      rw [strSpanAt, hterm]
      simp [Nat.add_sub_cancel_left]
    rw [hspan]
  · intro impl fnName colName chars offsets nm acc out i hn hok
    obtain ⟨g, rfl⟩ := executeAny_nonconst_ok _ _ _ _ _ _ rfl hok
    exact hashRowsNonConst_null g _ acc i hn

/-- Witness for C10: a single-row string column holding the empty string
(stored as the lone terminator byte) against the accumulator `[5]`. -/
theorem c10_empty_string_updates_witness :
    executeAny murmurImpl "h" .string ⟨"c", false, 0, none, .strs [0] [1]⟩ [5]
      = .ok [murmurImpl.apply [] 5] ∧
    [murmurImpl.apply [] 5].getD 0 0 = murmurImpl.apply [] ([5].getD 0 0) :=
  ⟨rfl, c10_empty_string_updates.1 murmurImpl "h" "c" [0] [1] none [5]
    [murmurImpl.apply [] 5] 0 (by decide) rfl rfl rfl rfl⟩

end SparkHash
